import Mathlib

/-!
# Verification of the amortization schedule generator of `src/app.py`

The generator is the body of `page_calculator` (src/app.py, lines 423-468).
We embed it shallowly: Python floats become `ℚ` (exact arithmetic), the
`date`/`relativedelta(months=1)` calendar step becomes `addOneMonth`,
Python's fallible `/` and `**` become `Except`-valued operations that
return `ZeroDivisionError` exactly where Python raises it, and each of the
three method loops becomes a structurally recursive row builder.
-/

/-- The three repayment methods offered by the radio button (line 430). -/
inductive Method where
  | Annuity
  | Differentiated
  | InterestOnly
deriving DecidableEq, Repr

/-- A calendar date, as Python's `datetime.date` (year, month 1..12, day 1..31). -/
structure Date where
  year : Int
  month : Int
  day : Int
deriving DecidableEq, Repr

/-- Gregorian leap-year rule, as used by `datetime`/`dateutil`. -/
def isLeap (y : Int) : Bool :=
  y % 4 == 0 && (y % 100 != 0 || y % 400 == 0)

/-- Number of days of month `m` of year `y`. -/
def daysInMonth (y m : Int) : Int :=
  if m = 2 then (if isLeap y then 29 else 28)
  else if m = 4 ∨ m = 6 ∨ m = 9 ∨ m = 11 then 30
  else 31

/-- `d + relativedelta(months=1)` (line 444/453/462): add one month, roll the
year, and clamp the day to the last valid day of the target month. -/
def addOneMonth (d : Date) : Date :=
  let m0 := d.month + 1
  let y := if 12 < m0 then d.year + 1 else d.year
  let m := if 12 < m0 then 1 else m0
  { year := y, month := m, day := min d.day (daysInMonth y m) }

/-- The calculator's input (widgets of lines 426-430). `termMonths` is an
`Int` because Python's `int(mths)` is unbounded and the claims quantify over
non-positive values as well. -/
structure LoanTerms where
  principal : ℚ
  annualRatePercent : ℚ
  termMonths : Int
  startDate : Date
  method : Method
deriving DecidableEq

/-- One row of the generated table (the dict appended at lines 445/454/463). -/
structure Row where
  period : Int
  date : Date
  payment : ℚ
  principal : ℚ
  interest : ℚ
  balance : ℚ
deriving DecidableEq, Repr

/-- Python float division: raises `ZeroDivisionError` on a zero divisor. -/
def pydiv (a b : ℚ) : Except String ℚ :=
  if b = 0 then .error "ZeroDivisionError" else .ok (a / b)

/-- Python float power with integer exponent: raises `ZeroDivisionError`
when the base is zero and the exponent negative; otherwise `x ^ m` (zpow). -/
def pypow (x : ℚ) (m : Int) : Except String ℚ :=
  if x = 0 ∧ m < 0 then .error "ZeroDivisionError" else .ok (x ^ m)

/-- Line 439: `pmt = amt * r_mo * ((1+r_mo)**mths)/(((1+r_mo)**mths)-1) if
r_mo>0 else amt/mths`.  Python evaluates only the selected branch. -/
def annuityPmt (amt r : ℚ) (mths : Int) : Except String ℚ :=
  if 0 < r then do
    let p ← pypow (1 + r) mths
    let q ← pypow (1 + r) mths
    pydiv (amt * r * p) (q - 1)
  else pydiv amt (mths : ℚ)

/-- The balance update of one Annuity iteration (lines 441-443):
`inte = bal*r; princ = pmt - inte; bal -= princ`. -/
def stepA (r pmt x : ℚ) : ℚ :=
  x - (pmt - x * r)

/-- The Annuity loop (lines 440-445), by remaining iteration count `k`,
current period `i`, running balance `bal` and running date `d`. -/
def annuityRows (r pmt : ℚ) : Nat → Int → ℚ → Date → List Row
  | 0, _, _, _ => []
  | k + 1, i, bal, d =>
    let inte := bal * r
    let princ := pmt - inte
    let bal2 := bal - princ
    let d2 := addOneMonth d
    { period := i, date := d2, payment := pmt, principal := princ,
      interest := inte, balance := max 0 bal2 }
      :: annuityRows r pmt k (i + 1) bal2 d2

/-- The Differentiated loop (lines 449-454). -/
def diffRows (r pf : ℚ) : Nat → Int → ℚ → Date → List Row
  | 0, _, _, _ => []
  | k + 1, i, bal, d =>
    let inte := bal * r
    let pmt := pf + inte
    let bal2 := bal - pf
    let d2 := addOneMonth d
    { period := i, date := d2, payment := pmt, principal := pf,
      interest := inte, balance := max 0 bal2 }
      :: diffRows r pf k (i + 1) bal2 d2

/-- The Interest Only loop (lines 457-463); `mths` is needed for the
`princ = bal if i==mths else 0` test of line 459. -/
def ioRows (r : ℚ) (mths : Int) : Nat → Int → ℚ → Date → List Row
  | 0, _, _, _ => []
  | k + 1, i, bal, d =>
    let inte := bal * r
    let princ := if i = mths then bal else 0
    let pmt := princ + inte
    let bal2 := bal - princ
    let d2 := addOneMonth d
    { period := i, date := d2, payment := pmt, principal := princ,
      interest := inte, balance := max 0 bal2 }
      :: ioRows r mths k (i + 1) bal2 d2

/-- The monthly rate `r_mo = rate/100/12` (line 435). -/
def monthlyRate (t : LoanTerms) : ℚ :=
  t.annualRatePercent / 100 / 12

/-- `generateSchedule`: the whole `if st.button("Generate")` body
(lines 432-463).  `range(1, int(mths)+1)` runs `max 0 mths = mths.toNat`
iterations starting at period 1; the running balance starts at the
principal and the running date at the start date. -/
def generateSchedule (t : LoanTerms) : Except String (List Row) :=
  let r := monthlyRate t
  let n := t.termMonths.toNat
  match t.method with
  | .Annuity => do
      let pmt ← annuityPmt t.principal r t.termMonths
      pure (annuityRows r pmt n 1 t.principal t.startDate)
  | .Differentiated => do
      let pf ← pydiv t.principal (t.termMonths : ℚ)
      pure (diffRows r pf n 1 t.principal t.startDate)
  | .InterestOnly =>
      pure (ioRows r t.termMonths n 1 t.principal t.startDate)

/-! ## Shape of the row lists -/

lemma annuityRows_length (r pmt : ℚ) (k : ℕ) (i : Int) (b : ℚ) (d : Date) :
    (annuityRows r pmt k i b d).length = k := by
  induction k generalizing i b d with
  | zero => rfl
  | succ k ih => simp [annuityRows, ih]

lemma diffRows_length (r pf : ℚ) (k : ℕ) (i : Int) (b : ℚ) (d : Date) :
    (diffRows r pf k i b d).length = k := by
  induction k generalizing i b d with
  | zero => rfl
  | succ k ih => simp [diffRows, ih]

lemma ioRows_length (r : ℚ) (mths : Int) (k : ℕ) (i : Int) (b : ℚ) (d : Date) :
    (ioRows r mths k i b d).length = k := by
  induction k generalizing i b d with
  | zero => rfl
  | succ k ih => simp [ioRows, ih]

/-- The `j`-th Annuity row, in terms of the iterated balance update. -/
lemma annuityRows_get? (r pmt : ℚ) (k : ℕ) (i : Int) (b : ℚ) (d : Date) (j : ℕ)
    (hj : j < k) :
    (annuityRows r pmt k i b d).get? j =
      some { period := i + j, date := addOneMonth^[j + 1] d, payment := pmt,
             principal := pmt - (stepA r pmt)^[j] b * r,
             interest := (stepA r pmt)^[j] b * r,
             balance := max 0 ((stepA r pmt)^[j + 1] b) } := by
  induction k generalizing i b d j with
  | zero => omega
  | succ k ih =>
    cases j with
    | zero =>
      simp [annuityRows, stepA, Function.iterate_one]
    | succ j =>
      have htail : (annuityRows r pmt (k + 1) i b d).get? (j + 1) =
          (annuityRows r pmt k (i + 1) (stepA r pmt b) (addOneMonth d)).get? j := rfl
      rw [htail, ih _ _ _ _ (by omega)]
      simp only [Function.iterate_succ_apply, Option.some.injEq, Row.mk.injEq]
      repeat' apply And.intro
      all_goals first
        | trivial
        | (push_cast; ring)

/-- The `j`-th Differentiated row: the balance declines by the fixed
installment `pf` each period. -/
lemma diffRows_get? (r pf : ℚ) (k : ℕ) (i : Int) (b : ℚ) (d : Date) (j : ℕ)
    (hj : j < k) :
    (diffRows r pf k i b d).get? j =
      some { period := i + j, date := addOneMonth^[j + 1] d,
             payment := pf + (b - j * pf) * r, principal := pf,
             interest := (b - j * pf) * r,
             balance := max 0 (b - (j + 1) * pf) } := by
  induction k generalizing i b d j with
  | zero => omega
  | succ k ih =>
    cases j with
    | zero =>
      simp [diffRows, Function.iterate_one]
    | succ j =>
      have htail : (diffRows r pf (k + 1) i b d).get? (j + 1) =
          (diffRows r pf k (i + 1) (b - pf) (addOneMonth d)).get? j := rfl
      rw [htail, ih _ _ _ _ (by omega)]
      simp only [Function.iterate_succ_apply, Option.some.injEq, Row.mk.injEq]
      repeat' apply And.intro
      all_goals first
        | trivial
        | (push_cast; ring)

/-- The `j`-th Interest Only row, assuming the loop is set to end exactly at
period `mths` (`i + k = mths + 1`): every row but the last pays interest
only on the unchanged balance `b`; the last row pays off `b` entirely. -/
lemma ioRows_get? (r : ℚ) (mths : Int) (k : ℕ) (i : Int) (b : ℚ) (d : Date)
    (hik : i + k = mths + 1) (j : ℕ) (hj : j < k) :
    (ioRows r mths k i b d).get? j =
      some (if j + 1 < k then
        { period := i + j, date := addOneMonth^[j + 1] d, payment := b * r,
          principal := 0, interest := b * r, balance := max 0 b }
      else
        { period := i + j, date := addOneMonth^[j + 1] d, payment := b + b * r,
          principal := b, interest := b * r, balance := 0 }) := by
  induction k generalizing i b d j with
  | zero => omega
  | succ k ih =>
    cases j with
    | zero =>
      rcases Nat.eq_zero_or_pos k with hk0 | hkpos
      · subst hk0
        have hi : i = mths := by omega
        rw [if_neg (by omega)]
        simp [ioRows, hi, Function.iterate_one]
      · have hi : i ≠ mths := by omega
        rw [if_pos (by omega)]
        simp [ioRows, hi, Function.iterate_one]
    | succ j =>
      have hi : i ≠ mths := by omega
      have htail : (ioRows r mths (k + 1) i b d).get? (j + 1) =
          (ioRows r mths k (i + 1) (b - (if i = mths then b else 0))
            (addOneMonth d)).get? j := rfl
      rw [htail, if_neg hi, sub_zero, ih _ _ _ (by omega) _ (by omega)]
      by_cases hcond : j + 1 < k
      · rw [if_pos hcond, if_pos (by omega)]
        simp only [Option.some.injEq, Row.mk.injEq, Function.iterate_succ_apply]
        repeat' apply And.intro
        all_goals first
          | trivial
          | (push_cast; ring)
      · rw [if_neg hcond, if_neg (by omega)]
        simp only [Option.some.injEq, Row.mk.injEq, Function.iterate_succ_apply]
        repeat' apply And.intro
        all_goals first
          | trivial
          | (push_cast; ring)

/-! ## Closed forms for the balance recurrences -/

/-- Zero monthly rate: the Annuity step subtracts `pmt` each period. -/
lemma stepA_iter_zero (pmt b : ℚ) (j : ℕ) :
    (stepA 0 pmt)^[j] b = b - j * pmt := by
  induction j with
  | zero => simp
  | succ j ih =>
    rw [Function.iterate_succ_apply', ih, stepA]
    push_cast; ring

/-- Positive monthly rate: the Annuity step is affine with fixed point
`pmt / r`. -/
lemma stepA_iter_pos (r pmt b : ℚ) (hr : r ≠ 0) (j : ℕ) :
    (stepA r pmt)^[j] b = (b - pmt / r) * (1 + r) ^ j + pmt / r := by
  induction j with
  | zero => simp
  | succ j ih =>
    rw [Function.iterate_succ_apply', ih, stepA]
    field_simp
    ring

/-! ## The annuity payment and its algebra -/

/-- The value computed at line 439 for the payment, with both branches of
the conditional expression. -/
def annuityPmtSpec (t : LoanTerms) : ℚ :=
  if 0 < monthlyRate t then
    t.principal * monthlyRate t * (1 + monthlyRate t) ^ t.termMonths
      / ((1 + monthlyRate t) ^ t.termMonths - 1)
  else t.principal / (t.termMonths : ℚ)

/-- The natural-exponent form of the positive-rate annuity payment. -/
def pmtQ (P r : ℚ) (n : ℕ) : ℚ :=
  P * r * (1 + r) ^ n / ((1 + r) ^ n - 1)

lemma denomQ_pos (r : ℚ) (hr : 0 < r) (n : ℕ) (hn : n ≠ 0) :
    0 < (1 + r) ^ n - 1 := by
  have h1 : (1 : ℚ) < 1 + r := by linarith
  have h2 : (1 : ℚ) < (1 + r) ^ n := one_lt_pow₀ h1 hn
  linarith

lemma zpow_toNat (x : ℚ) (m : Int) (hm : 0 ≤ m) : x ^ m = x ^ m.toNat := by
  lift m to ℕ using hm with n
  simp

lemma termMonths_cast (t : LoanTerms) (hm : 1 ≤ t.termMonths) :
    ((t.termMonths.toNat : ℚ)) = (t.termMonths : ℚ) := by
  exact_mod_cast Int.toNat_of_nonneg (show (0 : ℤ) ≤ t.termMonths by omega)

/-- Closed form of the running Annuity balance after `j` periods, when the
rate is positive and the payment is the line-439 annuity payment. -/
lemma annuity_bal_closed (P r : ℚ) (hr : 0 < r) (n : ℕ) (hn : n ≠ 0) (j : ℕ) :
    (stepA r (pmtQ P r n))^[j] P
      = P * ((1 + r) ^ n - (1 + r) ^ j) / ((1 + r) ^ n - 1) := by
  have hD : (1 + r) ^ n - 1 ≠ 0 := ne_of_gt (denomQ_pos r hr n hn)
  rw [stepA_iter_pos _ _ _ (ne_of_gt hr), pmtQ]
  field_simp
  ring

/-- Closed form of the `j`-th Annuity principal portion: it is
`P * r * (1+r)^j / ((1+r)^n - 1)`. -/
lemma annuity_princ_closed (P r : ℚ) (hr : 0 < r) (n : ℕ) (hn : n ≠ 0) (j : ℕ) :
    pmtQ P r n - (stepA r (pmtQ P r n))^[j] P * r
      = P * r * (1 + r) ^ j / ((1 + r) ^ n - 1) := by
  have hD : (1 + r) ^ n - 1 ≠ 0 := ne_of_gt (denomQ_pos r hr n hn)
  rw [annuity_bal_closed P r hr n hn j, pmtQ]
  field_simp
  ring

lemma annuity_bal_nonneg (P r : ℚ) (hP : 0 ≤ P) (hr : 0 < r) (n : ℕ)
    (hn : n ≠ 0) (j : ℕ) (hjn : j ≤ n) :
    0 ≤ (stepA r (pmtQ P r n))^[j] P := by
  rw [annuity_bal_closed P r hr n hn j]
  apply div_nonneg
  · apply mul_nonneg hP
    have h1 : (1 + r) ^ j ≤ (1 + r) ^ n := pow_le_pow_right₀ (by linarith) hjn
    linarith
  · linarith [denomQ_pos r hr n hn]

lemma annuity_bal_final (P r : ℚ) (hr : 0 < r) (n : ℕ) (hn : n ≠ 0) :
    (stepA r (pmtQ P r n))^[n] P = 0 := by
  rw [annuity_bal_closed P r hr n hn n]
  simp

/-- Straight-line balance `P - j * (P / n)` stays non-negative up to `n`. -/
lemma straight_bal_nonneg (P : ℚ) (hP : 0 ≤ P) (n : ℕ) (hn : n ≠ 0) (j : ℕ)
    (hjn : j ≤ n) : 0 ≤ P - j * (P / n) := by
  have hn' : (0 : ℚ) < n := by
    exact_mod_cast Nat.pos_of_ne_zero hn
  have h1 : (j : ℚ) ≤ n := by exact_mod_cast hjn
  have h2 : (j : ℚ) * (P / n) ≤ n * (P / n) :=
    mul_le_mul_of_nonneg_right h1 (div_nonneg hP hn'.le)
  have h3 : (n : ℚ) * (P / n) = P := by field_simp
  linarith

lemma straight_bal_final (P : ℚ) (n : ℕ) (hn : n ≠ 0) :
    P - n * (P / n) = 0 := by
  have hn' : ((n : ℚ)) ≠ 0 := by exact_mod_cast hn
  field_simp

/-! ## Evaluation of `generateSchedule` per method -/

lemma except_ok_bind {α β : Type} (a : α) (f : α → Except String β) :
    (Except.ok a : Except String α) >>= f = f a := rfl

lemma annuityPmt_eq (t : LoanTerms) (hm : 1 ≤ t.termMonths) :
    annuityPmt t.principal (monthlyRate t) t.termMonths
      = .ok (annuityPmtSpec t) := by
  by_cases hr : 0 < monthlyRate t
  · have h0 : ¬(1 + monthlyRate t = 0 ∧ t.termMonths < 0) := by
      rintro ⟨h1, _⟩; linarith
    have hD : (1 + monthlyRate t) ^ t.termMonths - 1 ≠ 0 := by
      rw [zpow_toNat _ _ (by omega)]
      have := denomQ_pos (monthlyRate t) hr t.termMonths.toNat (by omega)
      linarith
    simp [annuityPmt, annuityPmtSpec, pypow, pydiv, hr, h0, hD, except_ok_bind]
  · have hc : ((t.termMonths : ℚ)) ≠ 0 := Int.cast_ne_zero.mpr (by omega)
    simp [annuityPmt, annuityPmtSpec, pydiv, hr, hc]

lemma gen_annuity (t : LoanTerms) (hm : 1 ≤ t.termMonths)
    (h : t.method = .Annuity) :
    generateSchedule t = .ok (annuityRows (monthlyRate t) (annuityPmtSpec t)
      t.termMonths.toNat 1 t.principal t.startDate) := by
  simp [generateSchedule, h, annuityPmt_eq t hm, except_ok_bind,
    Pure.pure, Except.pure]

lemma gen_diff (t : LoanTerms) (hm0 : t.termMonths ≠ 0)
    (h : t.method = .Differentiated) :
    generateSchedule t = .ok (diffRows (monthlyRate t)
      (t.principal / (t.termMonths : ℚ)) t.termMonths.toNat 1
      t.principal t.startDate) := by
  have hc : ((t.termMonths : ℚ)) ≠ 0 := Int.cast_ne_zero.mpr hm0
  simp [generateSchedule, h, pydiv, hc, except_ok_bind,
    Pure.pure, Except.pure]

lemma gen_io (t : LoanTerms) (h : t.method = .InterestOnly) :
    generateSchedule t = .ok (ioRows (monthlyRate t) t.termMonths
      t.termMonths.toNat 1 t.principal t.startDate) := by
  simp [generateSchedule, h, Pure.pure, Except.pure]

/-! ## Bridging `get?` and `get` -/

lemma get_of_get? {α : Type} (l : List α) (j : ℕ) (hj : j < l.length) (a : α)
    (h : l.get? j = some a) : l.get ⟨j, hj⟩ = a := by
  rw [List.get?_eq_get hj] at h
  exact Option.some.inj h

/-! ## Concrete inputs used by the witnesses -/

def termsA : LoanTerms := ⟨100000, 12, 12, ⟨2024, 1, 1⟩, .Annuity⟩

def termsD : LoanTerms := ⟨120000, 12, 12, ⟨2024, 1, 1⟩, .Differentiated⟩

def termsI : LoanTerms := ⟨50000, 6, 6, ⟨2024, 1, 1⟩, .InterestOnly⟩

/-! ## Claims -/

/-- C1: for every valid `LoanTerms` with method Annuity, the payment of
every row equals the fixed value of line 439: `principal * r * (1+r)^n /
((1+r)^n - 1)` when the monthly rate `r` is positive, and `principal / n`
when it is not (a distinct straight-line branch, see `annuityPmtSpec`). -/
theorem annuity_payment_constant (t : LoanTerms)
    (hm : 1 ≤ t.termMonths) (hp : 0 ≤ t.principal)
    (hr : 0 ≤ t.annualRatePercent) (hme : t.method = .Annuity) :
    ∃ rows, generateSchedule t = .ok rows ∧
      ∀ j (hj : j < rows.length),
        (rows.get ⟨j, hj⟩).payment = annuityPmtSpec t := by
  refine ⟨_, gen_annuity t hm hme, ?_⟩
  intro j hj
  have hj' : j < t.termMonths.toNat := by
    simpa [annuityRows_length] using hj
  rw [get_of_get? _ j hj _ (annuityRows_get? _ _ _ _ _ _ j hj')]

theorem annuity_payment_constant_witness :
    (1 ≤ termsA.termMonths ∧ 0 ≤ termsA.principal ∧
      0 ≤ termsA.annualRatePercent ∧ termsA.method = .Annuity) ∧
    (∃ rows, generateSchedule termsA = .ok rows ∧
      ∀ j (hj : j < rows.length),
        (rows.get ⟨j, hj⟩).payment = annuityPmtSpec termsA) :=
  ⟨⟨by decide, by decide, by decide, rfl⟩,
    annuity_payment_constant termsA (by decide) (by decide) (by decide) rfl⟩

/-- C2: for every valid `LoanTerms` and every method, the schedule has
exactly `termMonths` rows and the period of the `j`-th row (0-based) is
`j + 1`, so periods run `1..termMonths` contiguously. -/
theorem schedule_length_periods (t : LoanTerms)
    (hm : 1 ≤ t.termMonths) (hp : 0 ≤ t.principal)
    (hr : 0 ≤ t.annualRatePercent) :
    ∃ rows, generateSchedule t = .ok rows ∧
      (rows.length : Int) = t.termMonths ∧
      ∀ j (hj : j < rows.length),
        (rows.get ⟨j, hj⟩).period = (j : Int) + 1 := by
  have htn : (t.termMonths.toNat : Int) = t.termMonths :=
    Int.toNat_of_nonneg (by omega)
  cases hmeth : t.method with
  | Annuity =>
    refine ⟨_, gen_annuity t hm hmeth, by rw [annuityRows_length]; exact htn, ?_⟩
    intro j hj
    have hj' : j < t.termMonths.toNat := by simpa [annuityRows_length] using hj
    rw [get_of_get? _ j hj _ (annuityRows_get? _ _ _ _ _ _ j hj')]
    show (1 : Int) + (j : Int) = (j : Int) + 1
    ring
  | Differentiated =>
    refine ⟨_, gen_diff t (by omega) hmeth, by rw [diffRows_length]; exact htn, ?_⟩
    intro j hj
    have hj' : j < t.termMonths.toNat := by simpa [diffRows_length] using hj
    rw [get_of_get? _ j hj _ (diffRows_get? _ _ _ _ _ _ j hj')]
    show (1 : Int) + (j : Int) = (j : Int) + 1
    ring
  | InterestOnly =>
    refine ⟨_, gen_io t hmeth, by rw [ioRows_length]; exact htn, ?_⟩
    intro j hj
    have hj' : j < t.termMonths.toNat := by simpa [ioRows_length] using hj
    have hik : (1 : Int) + (t.termMonths.toNat : Int) = t.termMonths + 1 := by
      omega
    rw [get_of_get? _ j hj _ (ioRows_get? _ _ _ _ _ _ hik j hj')]
    rcases lt_or_ge (j + 1) t.termMonths.toNat with hc | hc
    · rw [if_pos hc]
      show (1 : Int) + (j : Int) = (j : Int) + 1
      ring
    · rw [if_neg (by omega)]
      show (1 : Int) + (j : Int) = (j : Int) + 1
      ring

theorem schedule_length_periods_witness :
    (1 ≤ termsI.termMonths ∧ 0 ≤ termsI.principal ∧
      0 ≤ termsI.annualRatePercent) ∧
    (∃ rows, generateSchedule termsI = .ok rows ∧
      (rows.length : Int) = termsI.termMonths ∧
      ∀ j (hj : j < rows.length),
        (rows.get ⟨j, hj⟩).period = (j : Int) + 1) :=
  ⟨⟨by decide, by decide, by decide⟩,
    schedule_length_periods termsI (by decide) (by decide) (by decide)⟩

/-- C5: for every valid `LoanTerms` and every method, every row satisfies
`payment = principal + interest` — exactly in the rational model, hence in
particular within any floating-point tolerance. -/
theorem payment_decomposition (t : LoanTerms)
    (hm : 1 ≤ t.termMonths) (hp : 0 ≤ t.principal)
    (hr : 0 ≤ t.annualRatePercent) :
    ∃ rows, generateSchedule t = .ok rows ∧
      ∀ j (hj : j < rows.length),
        (rows.get ⟨j, hj⟩).payment
          = (rows.get ⟨j, hj⟩).principal + (rows.get ⟨j, hj⟩).interest := by
  cases hmeth : t.method with
  | Annuity =>
    refine ⟨_, gen_annuity t hm hmeth, ?_⟩
    intro j hj
    have hj' : j < t.termMonths.toNat := by simpa [annuityRows_length] using hj
    rw [get_of_get? _ j hj _ (annuityRows_get? _ _ _ _ _ _ j hj')]
    show annuityPmtSpec t = _ + _
    ring
  | Differentiated =>
    refine ⟨_, gen_diff t (by omega) hmeth, ?_⟩
    intro j hj
    have hj' : j < t.termMonths.toNat := by simpa [diffRows_length] using hj
    rw [get_of_get? _ j hj _ (diffRows_get? _ _ _ _ _ _ j hj')]
  | InterestOnly =>
    refine ⟨_, gen_io t hmeth, ?_⟩
    intro j hj
    have hj' : j < t.termMonths.toNat := by simpa [ioRows_length] using hj
    have hik : (1 : Int) + (t.termMonths.toNat : Int) = t.termMonths + 1 := by
      omega
    rw [get_of_get? _ j hj _ (ioRows_get? _ _ _ _ _ _ hik j hj')]
    rcases lt_or_ge (j + 1) t.termMonths.toNat with hc | hc
    · rw [if_pos hc]
      show _ = _
      simp
    · rw [if_neg (by omega)]

theorem payment_decomposition_witness :
    (1 ≤ termsD.termMonths ∧ 0 ≤ termsD.principal ∧
      0 ≤ termsD.annualRatePercent) ∧
    (∃ rows, generateSchedule termsD = .ok rows ∧
      ∀ j (hj : j < rows.length),
        (rows.get ⟨j, hj⟩).payment
          = (rows.get ⟨j, hj⟩).principal + (rows.get ⟨j, hj⟩).interest) :=
  ⟨⟨by decide, by decide, by decide⟩,
    payment_decomposition termsD (by decide) (by decide) (by decide)⟩

/-- C10: under the preconditions `termMonths ≥ 1` and
`annualRatePercent ≥ 0`, every division the generator performs has a
nonzero divisor — `(1+r)^termMonths - 1 ≠ 0` whenever `r > 0`, and
`(termMonths : ℚ) ≠ 0` — so `generateSchedule` succeeds (no
`ZeroDivisionError` is reachable on the valid domain). -/
theorem no_division_by_zero (t : LoanTerms)
    (hm : 1 ≤ t.termMonths) (hr : 0 ≤ t.annualRatePercent) :
    ∃ rows, generateSchedule t = .ok rows ∧
      ((t.termMonths : ℚ) ≠ 0) ∧
      (0 < monthlyRate t → (1 + monthlyRate t) ^ t.termMonths - 1 ≠ 0) := by
  have hc : ((t.termMonths : ℚ)) ≠ 0 := Int.cast_ne_zero.mpr (by omega)
  have hD : 0 < monthlyRate t → (1 + monthlyRate t) ^ t.termMonths - 1 ≠ 0 := by
    intro hr0
    rw [zpow_toNat _ _ (by omega)]
    have := denomQ_pos (monthlyRate t) hr0 t.termMonths.toNat (by omega)
    linarith
  cases hmeth : t.method with
  | Annuity => exact ⟨_, gen_annuity t hm hmeth, hc, hD⟩
  | Differentiated => exact ⟨_, gen_diff t (by omega) hmeth, hc, hD⟩
  | InterestOnly => exact ⟨_, gen_io t hmeth, hc, hD⟩

theorem no_division_by_zero_witness :
    (1 ≤ termsA.termMonths ∧ 0 ≤ termsA.annualRatePercent) ∧
    (∃ rows, generateSchedule termsA = .ok rows ∧
      ((termsA.termMonths : ℚ) ≠ 0) ∧
      (0 < monthlyRate termsA →
        (1 + monthlyRate termsA) ^ termsA.termMonths - 1 ≠ 0)) :=
  ⟨⟨by decide, by decide⟩, no_division_by_zero termsA (by decide) (by decide)⟩

/-! ## Balance facts per method -/

lemma monthlyRate_nonneg (t : LoanTerms) (hr : 0 ≤ t.annualRatePercent) :
    0 ≤ monthlyRate t :=
  div_nonneg (div_nonneg hr (by norm_num)) (by norm_num)

lemma monthlyRate_pos (t : LoanTerms) (hr : 0 < t.annualRatePercent) :
    0 < monthlyRate t :=
  div_pos (div_pos hr (by norm_num)) (by norm_num)

lemma monthlyRate_eq_zero (t : LoanTerms) (hr : 0 ≤ t.annualRatePercent)
    (h : ¬ 0 < monthlyRate t) : monthlyRate t = 0 :=
  le_antisymm (not_lt.mp h) (monthlyRate_nonneg t hr)

lemma annuityPmtSpec_pos (t : LoanTerms) (hm : 1 ≤ t.termMonths)
    (hr : 0 < monthlyRate t) :
    annuityPmtSpec t = pmtQ t.principal (monthlyRate t) t.termMonths.toNat := by
  rw [annuityPmtSpec, if_pos hr, pmtQ, zpow_toNat _ _ (by omega)]

lemma annuityPmtSpec_zero (t : LoanTerms) (hm : 1 ≤ t.termMonths)
    (hr : ¬ 0 < monthlyRate t) :
    annuityPmtSpec t = t.principal / (t.termMonths.toNat : ℚ) := by
  rw [annuityPmtSpec, if_neg hr, termMonths_cast t hm]

/-- Under the preconditions, the running Annuity balance is non-negative
throughout the schedule. -/
lemma annuity_s_nonneg (t : LoanTerms) (hm : 1 ≤ t.termMonths)
    (hp : 0 ≤ t.principal) (hr : 0 ≤ t.annualRatePercent) (j : ℕ)
    (hj : j ≤ t.termMonths.toNat) :
    0 ≤ (stepA (monthlyRate t) (annuityPmtSpec t))^[j] t.principal := by
  by_cases hr0 : 0 < monthlyRate t
  · rw [annuityPmtSpec_pos t hm hr0]
    exact annuity_bal_nonneg _ _ hp hr0 _ (by omega) j hj
  · have h0 : monthlyRate t = 0 := monthlyRate_eq_zero t hr hr0
    rw [annuityPmtSpec_zero t hm hr0, h0, stepA_iter_zero]
    exact straight_bal_nonneg _ hp _ (by omega) j hj

/-- Under the preconditions, the running Annuity balance after the last
period is exactly zero. -/
lemma annuity_s_final (t : LoanTerms) (hm : 1 ≤ t.termMonths)
    (hr : 0 ≤ t.annualRatePercent) :
    (stepA (monthlyRate t) (annuityPmtSpec t))^[t.termMonths.toNat]
      t.principal = 0 := by
  by_cases hr0 : 0 < monthlyRate t
  · rw [annuityPmtSpec_pos t hm hr0]
    exact annuity_bal_final _ _ hr0 _ (by omega)
  · have h0 : monthlyRate t = 0 := monthlyRate_eq_zero t hr hr0
    rw [annuityPmtSpec_zero t hm hr0, h0, stepA_iter_zero]
    exact straight_bal_final _ _ (by omega)

/-- C4: for every valid `LoanTerms` and every method, the reported balance
of row 0 is the input principal minus its principal portion, each later
row's balance is the previous balance minus that row's principal portion,
every reported balance is non-negative (floored at zero by `max 0`), and
the final row's balance is exactly 0 — exact in the rational model, hence
within any floating-point tolerance. -/
theorem balance_recurrence (t : LoanTerms)
    (hm : 1 ≤ t.termMonths) (hp : 0 ≤ t.principal)
    (hr : 0 ≤ t.annualRatePercent) :
    ∃ rows, generateSchedule t = .ok rows ∧
      (∀ h0 : 0 < rows.length,
        (rows.get ⟨0, h0⟩).balance
          = t.principal - (rows.get ⟨0, h0⟩).principal) ∧
      (∀ j (hj : j + 1 < rows.length),
        (rows.get ⟨j + 1, hj⟩).balance
          = (rows.get ⟨j, by omega⟩).balance
            - (rows.get ⟨j + 1, hj⟩).principal) ∧
      (∀ j (hj : j < rows.length), 0 ≤ (rows.get ⟨j, hj⟩).balance) ∧
      (∀ hlast : rows.length - 1 < rows.length,
        (rows.get ⟨rows.length - 1, hlast⟩).balance = 0) := by
  have hn1 : 1 ≤ t.termMonths.toNat := by omega
  cases hmeth : t.method with
  | Annuity =>
    have hlen : (annuityRows (monthlyRate t) (annuityPmtSpec t)
        t.termMonths.toNat 1 t.principal t.startDate).length
        = t.termMonths.toNat := annuityRows_length _ _ _ _ _ _
    refine ⟨_, gen_annuity t hm hmeth, ?_, ?_, ?_, ?_⟩
    · intro h0
      have h0' : 0 < t.termMonths.toNat := by omega
      rw [get_of_get? _ 0 h0 _ (annuityRows_get? _ _ _ _ _ _ 0 h0')]
      show max 0 ((stepA (monthlyRate t) (annuityPmtSpec t))^[0 + 1] t.principal)
          = t.principal - (annuityPmtSpec t
            - (stepA (monthlyRate t) (annuityPmtSpec t))^[0] t.principal
              * monthlyRate t)
      rw [max_eq_right (annuity_s_nonneg t hm hp hr 1 (by omega))]
      simp [stepA, Function.iterate_one]
    · intro j hj
      have hj' : j + 1 < t.termMonths.toNat := by omega
      rw [get_of_get? _ (j + 1) hj _ (annuityRows_get? _ _ _ _ _ _ (j + 1) hj'),
        get_of_get? _ j (by omega) _ (annuityRows_get? _ _ _ _ _ _ j (by omega))]
      show max 0 ((stepA (monthlyRate t) (annuityPmtSpec t))^[j + 1 + 1]
            t.principal)
          = max 0 ((stepA (monthlyRate t) (annuityPmtSpec t))^[j + 1]
              t.principal)
            - (annuityPmtSpec t
              - (stepA (monthlyRate t) (annuityPmtSpec t))^[j + 1] t.principal
                * monthlyRate t)
      rw [max_eq_right (annuity_s_nonneg t hm hp hr (j + 1 + 1) (by omega)),
        max_eq_right (annuity_s_nonneg t hm hp hr (j + 1) (by omega)),
        Function.iterate_succ_apply' (stepA (monthlyRate t) (annuityPmtSpec t))
          (j + 1)]
      rw [stepA]
    · intro j hj
      have hj' : j < t.termMonths.toNat := by omega
      rw [get_of_get? _ j hj _ (annuityRows_get? _ _ _ _ _ _ j hj')]
      exact le_max_left 0 _
    · intro hlast
      rw [get_of_get? _ _ hlast _
        (annuityRows_get? (monthlyRate t) (annuityPmtSpec t) t.termMonths.toNat
          1 t.principal t.startDate _ (by omega))]
      show max 0 ((stepA (monthlyRate t) (annuityPmtSpec t))^[_ + 1]
        t.principal) = 0
      have hsub : (annuityRows (monthlyRate t) (annuityPmtSpec t)
          t.termMonths.toNat 1 t.principal t.startDate).length - 1 + 1
          = t.termMonths.toNat := by omega
      rw [hsub, annuity_s_final t hm hr]
      simp
  | Differentiated =>
    have hpf : t.principal / ((t.termMonths : ℚ))
        = t.principal / ((t.termMonths.toNat : ℚ)) := by
      rw [termMonths_cast t hm]
    have hlen : (diffRows (monthlyRate t) (t.principal / ((t.termMonths : ℚ)))
        t.termMonths.toNat 1 t.principal t.startDate).length
        = t.termMonths.toNat := diffRows_length _ _ _ _ _ _
    refine ⟨_, gen_diff t (by omega) hmeth, ?_, ?_, ?_, ?_⟩
    · intro h0
      have h0' : 0 < t.termMonths.toNat := by omega
      rw [get_of_get? _ 0 h0 _ (diffRows_get? _ _ _ _ _ _ 0 h0')]
      show max 0 (t.principal
          - ((0 : ℕ) + 1) * (t.principal / ((t.termMonths : ℚ))))
        = t.principal - t.principal / ((t.termMonths : ℚ))
      have hnn : 0 ≤ t.principal
          - ((0 : ℕ) + 1 : ℚ) * (t.principal / ((t.termMonths : ℚ))) := by
        rw [hpf]
        have := straight_bal_nonneg t.principal hp t.termMonths.toNat
          (by omega) 1 (by omega)
        push_cast at this ⊢
        linarith
      rw [max_eq_right hnn]
      push_cast
      ring
    · intro j hj
      have hj' : j + 1 < t.termMonths.toNat := by omega
      rw [get_of_get? _ (j + 1) hj _ (diffRows_get? _ _ _ _ _ _ (j + 1) hj'),
        get_of_get? _ j (by omega) _ (diffRows_get? _ _ _ _ _ _ j (by omega))]
      show max 0 (t.principal
          - (((j : ℕ) + 1 : ℕ) + 1) * (t.principal / ((t.termMonths : ℚ))))
        = max 0 (t.principal
            - ((j : ℕ) + 1) * (t.principal / ((t.termMonths : ℚ))))
          - t.principal / ((t.termMonths : ℚ))
      have h1 : 0 ≤ t.principal
          - (((j : ℕ) + 1 : ℕ) + 1 : ℚ) * (t.principal / ((t.termMonths : ℚ))) := by
        rw [hpf]
        have := straight_bal_nonneg t.principal hp t.termMonths.toNat
          (by omega) (j + 2) (by omega)
        push_cast at this ⊢
        linarith
      have h2 : 0 ≤ t.principal
          - ((j : ℕ) + 1 : ℚ) * (t.principal / ((t.termMonths : ℚ))) := by
        rw [hpf]
        have := straight_bal_nonneg t.principal hp t.termMonths.toNat
          (by omega) (j + 1) (by omega)
        push_cast at this ⊢
        linarith
      rw [max_eq_right h1, max_eq_right h2]
      push_cast
      ring
    · intro j hj
      have hj' : j < t.termMonths.toNat := by omega
      rw [get_of_get? _ j hj _ (diffRows_get? _ _ _ _ _ _ j hj')]
      exact le_max_left 0 _
    · intro hlast
      rw [get_of_get? _ _ hlast _
        (diffRows_get? (monthlyRate t) (t.principal / ((t.termMonths : ℚ)))
          t.termMonths.toNat 1 t.principal t.startDate _ (by omega))]
      show max 0 (t.principal
          - (((diffRows (monthlyRate t) (t.principal / ((t.termMonths : ℚ)))
              t.termMonths.toNat 1 t.principal t.startDate).length - 1 : ℕ) + 1)
            * (t.principal / ((t.termMonths : ℚ)))) = 0
      have hc : (((diffRows (monthlyRate t)
            (t.principal / ((t.termMonths : ℚ))) t.termMonths.toNat 1
            t.principal t.startDate).length - 1 : ℕ) + 1 : ℚ)
          = ((t.termMonths : ℚ)) := by
        have hn' : (diffRows (monthlyRate t)
            (t.principal / ((t.termMonths : ℚ))) t.termMonths.toNat 1
            t.principal t.startDate).length - 1 + 1
            = t.termMonths.toNat := by omega
        have h1 : (((diffRows (monthlyRate t)
            (t.principal / ((t.termMonths : ℚ))) t.termMonths.toNat 1
            t.principal t.startDate).length - 1 : ℕ) + 1 : ℚ)
            = ((t.termMonths.toNat : ℚ)) := by
          exact_mod_cast congrArg (fun k : ℕ => (k : ℚ)) hn'
        rw [h1, termMonths_cast t hm]
      rw [hc]
      have hm0 : ((t.termMonths : ℚ)) ≠ 0 := Int.cast_ne_zero.mpr (by omega)
      have hfin : t.principal
          - ((t.termMonths : ℚ)) * (t.principal / ((t.termMonths : ℚ))) = 0 := by
        field_simp
      rw [hfin]
      simp
  | InterestOnly =>
    have hik : (1 : Int) + ((t.termMonths.toNat : Int)) = t.termMonths + 1 := by
      omega
    have hlen : (ioRows (monthlyRate t) t.termMonths t.termMonths.toNat 1
        t.principal t.startDate).length = t.termMonths.toNat :=
      ioRows_length _ _ _ _ _ _
    refine ⟨_, gen_io t hmeth, ?_, ?_, ?_, ?_⟩
    · intro h0
      have h0' : 0 < t.termMonths.toNat := by omega
      rw [get_of_get? _ 0 h0 _ (ioRows_get? _ _ _ _ _ _ hik 0 h0')]
      rcases lt_or_ge (0 + 1) t.termMonths.toNat with hc | hc
      · rw [if_pos hc]
        show max 0 t.principal = t.principal - 0
        rw [max_eq_right hp]
        ring
      · rw [if_neg (by omega)]
        show (0 : ℚ) = t.principal - t.principal
        ring
    · intro j hj
      have hj' : j + 1 < t.termMonths.toNat := by omega
      rw [get_of_get? _ (j + 1) hj _ (ioRows_get? _ _ _ _ _ _ hik (j + 1) hj'),
        get_of_get? _ j (by omega) _ (ioRows_get? _ _ _ _ _ _ hik j (by omega))]
      rw [if_pos (show j + 1 < t.termMonths.toNat by omega)]
      rcases lt_or_ge (j + 1 + 1) t.termMonths.toNat with hc | hc
      · rw [if_pos hc]
        show max 0 t.principal = max 0 t.principal - 0
        ring
      · rw [if_neg (by omega)]
        show (0 : ℚ) = max 0 t.principal - t.principal
        rw [max_eq_right hp]
        ring
    · intro j hj
      have hj' : j < t.termMonths.toNat := by omega
      rw [get_of_get? _ j hj _ (ioRows_get? _ _ _ _ _ _ hik j hj')]
      rcases lt_or_ge (j + 1) t.termMonths.toNat with hc | hc
      · rw [if_pos hc]
        exact le_max_left 0 _
      · rw [if_neg (by omega)]
    · intro hlast
      rw [get_of_get? _ _ hlast _
        (ioRows_get? (monthlyRate t) t.termMonths t.termMonths.toNat 1
          t.principal t.startDate hik _ (by omega)),
        if_neg (by omega)]

theorem balance_recurrence_witness :
    (1 ≤ termsA.termMonths ∧ 0 ≤ termsA.principal ∧
      0 ≤ termsA.annualRatePercent) ∧
    (∃ rows, generateSchedule termsA = .ok rows ∧
      (∀ h0 : 0 < rows.length,
        (rows.get ⟨0, h0⟩).balance
          = termsA.principal - (rows.get ⟨0, h0⟩).principal) ∧
      (∀ j (hj : j + 1 < rows.length),
        (rows.get ⟨j + 1, hj⟩).balance
          = (rows.get ⟨j, by omega⟩).balance
            - (rows.get ⟨j + 1, hj⟩).principal) ∧
      (∀ j (hj : j < rows.length), 0 ≤ (rows.get ⟨j, hj⟩).balance) ∧
      (∀ hlast : rows.length - 1 < rows.length,
        (rows.get ⟨rows.length - 1, hlast⟩).balance = 0)) :=
  ⟨⟨by decide, by decide, by decide⟩,
    balance_recurrence termsA (by decide) (by decide) (by decide)⟩

/-- C6: for every valid `LoanTerms` with method Interest Only, every row
except the last has zero principal, payment equal to that period's interest,
and balance still equal to the input principal; every row's interest is
`principal * r` (the running balance stays at the input principal); and the
last row pays the entire remaining balance as principal, leaving balance 0. -/
theorem interest_only_structure (t : LoanTerms)
    (hm : 1 ≤ t.termMonths) (hp : 0 ≤ t.principal)
    (hr : 0 ≤ t.annualRatePercent) (hme : t.method = .InterestOnly) :
    ∃ rows, generateSchedule t = .ok rows ∧
      (∀ j (hj : j + 1 < rows.length),
        (rows.get ⟨j, by omega⟩).principal = 0 ∧
        (rows.get ⟨j, by omega⟩).payment = (rows.get ⟨j, by omega⟩).interest ∧
        (rows.get ⟨j, by omega⟩).balance = t.principal) ∧
      (∀ j (hj : j < rows.length),
        (rows.get ⟨j, hj⟩).interest = t.principal * monthlyRate t) ∧
      (∀ hlast : rows.length - 1 < rows.length,
        (rows.get ⟨rows.length - 1, hlast⟩).principal = t.principal ∧
        (rows.get ⟨rows.length - 1, hlast⟩).balance = 0) := by
  have hik : (1 : Int) + ((t.termMonths.toNat : Int)) = t.termMonths + 1 := by
    omega
  have hlen : (ioRows (monthlyRate t) t.termMonths t.termMonths.toNat 1
      t.principal t.startDate).length = t.termMonths.toNat :=
    ioRows_length _ _ _ _ _ _
  refine ⟨_, gen_io t hme, ?_, ?_, ?_⟩
  · intro j hj
    have hj' : j + 1 < t.termMonths.toNat := by omega
    rw [get_of_get? _ j (by omega) _
      (ioRows_get? _ _ _ _ _ _ hik j (by omega)), if_pos hj']
    exact ⟨rfl, rfl, max_eq_right hp⟩
  · intro j hj
    have hj' : j < t.termMonths.toNat := by omega
    rw [get_of_get? _ j hj _ (ioRows_get? _ _ _ _ _ _ hik j hj')]
    rcases lt_or_ge (j + 1) t.termMonths.toNat with hc | hc
    · rw [if_pos hc]
    · rw [if_neg (by omega)]
  · intro hlast
    rw [get_of_get? _ _ hlast _
      (ioRows_get? (monthlyRate t) t.termMonths t.termMonths.toNat 1
        t.principal t.startDate hik _ (by omega)), if_neg (by omega)]
    exact ⟨rfl, rfl⟩

theorem interest_only_structure_witness :
    (1 ≤ termsI.termMonths ∧ 0 ≤ termsI.principal ∧
      0 ≤ termsI.annualRatePercent ∧ termsI.method = .InterestOnly) ∧
    (∃ rows, generateSchedule termsI = .ok rows ∧
      (∀ j (hj : j + 1 < rows.length),
        (rows.get ⟨j, by omega⟩).principal = 0 ∧
        (rows.get ⟨j, by omega⟩).payment = (rows.get ⟨j, by omega⟩).interest ∧
        (rows.get ⟨j, by omega⟩).balance = termsI.principal) ∧
      (∀ j (hj : j < rows.length),
        (rows.get ⟨j, hj⟩).interest = termsI.principal * monthlyRate termsI) ∧
      (∀ hlast : rows.length - 1 < rows.length,
        (rows.get ⟨rows.length - 1, hlast⟩).principal = termsI.principal ∧
        (rows.get ⟨rows.length - 1, hlast⟩).balance = 0)) :=
  ⟨⟨by decide, by decide, by decide, rfl⟩,
    interest_only_structure termsI (by decide) (by decide) (by decide) rfl⟩

/-- C7: for every valid `LoanTerms` with method Differentiated, every row's
principal portion is the fixed value `principal / termMonths`, and when the
rate and principal are positive the total payments strictly decrease from
each period to the next.  (`monthlyRate t > 0` iff `annualRatePercent > 0`.) -/
theorem differentiated_structure (t : LoanTerms)
    (hm : 1 ≤ t.termMonths) (hp : 0 ≤ t.principal)
    (hr : 0 ≤ t.annualRatePercent) (hme : t.method = .Differentiated) :
    ∃ rows, generateSchedule t = .ok rows ∧
      (∀ j (hj : j < rows.length),
        (rows.get ⟨j, hj⟩).principal = t.principal / ((t.termMonths : ℚ))) ∧
      (0 < t.annualRatePercent → 0 < t.principal →
        ∀ j (hj : j + 1 < rows.length),
          (rows.get ⟨j + 1, hj⟩).payment < (rows.get ⟨j, by omega⟩).payment) := by
  have hlen : (diffRows (monthlyRate t) (t.principal / ((t.termMonths : ℚ)))
      t.termMonths.toNat 1 t.principal t.startDate).length
      = t.termMonths.toNat := diffRows_length _ _ _ _ _ _
  refine ⟨_, gen_diff t (by omega) hme, ?_, ?_⟩
  · intro j hj
    rw [get_of_get? _ j hj _ (diffRows_get? _ _ _ _ _ _ j (by omega))]
  · intro hrp hpp j hj
    rw [get_of_get? _ (j + 1) hj _ (diffRows_get? _ _ _ _ _ _ (j + 1) (by omega)),
      get_of_get? _ j (by omega) _ (diffRows_get? _ _ _ _ _ _ j (by omega))]
    have hr0 : 0 < monthlyRate t := monthlyRate_pos t hrp
    have hmQ : (0 : ℚ) < ((t.termMonths : ℚ)) := by
      exact_mod_cast (show (0 : ℤ) < t.termMonths by omega)
    have hpf : 0 < t.principal / ((t.termMonths : ℚ)) := div_pos hpp hmQ
    have key : (t.principal - (j : ℚ) * (t.principal / ((t.termMonths : ℚ))))
          * monthlyRate t
        - (t.principal - ((j : ℚ) + 1) * (t.principal / ((t.termMonths : ℚ))))
          * monthlyRate t
        = (t.principal / ((t.termMonths : ℚ))) * monthlyRate t := by
      ring
    have hprod := mul_pos hpf hr0
    show t.principal / ((t.termMonths : ℚ))
        + (t.principal - ((j : ℕ) + 1 : ℕ)
          * (t.principal / ((t.termMonths : ℚ)))) * monthlyRate t
      < t.principal / ((t.termMonths : ℚ))
        + (t.principal - (j : ℚ)
          * (t.principal / ((t.termMonths : ℚ)))) * monthlyRate t
    push_cast
    linarith

theorem differentiated_structure_witness :
    (1 ≤ termsD.termMonths ∧ 0 ≤ termsD.principal ∧
      0 ≤ termsD.annualRatePercent ∧ termsD.method = .Differentiated) ∧
    (∃ rows, generateSchedule termsD = .ok rows ∧
      (∀ j (hj : j < rows.length),
        (rows.get ⟨j, hj⟩).principal
          = termsD.principal / ((termsD.termMonths : ℚ))) ∧
      (0 < termsD.annualRatePercent → 0 < termsD.principal →
        ∀ j (hj : j + 1 < rows.length),
          (rows.get ⟨j + 1, hj⟩).payment < (rows.get ⟨j, by omega⟩).payment)) :=
  ⟨⟨by decide, by decide, by decide, rfl⟩,
    differentiated_structure termsD (by decide) (by decide) (by decide) rfl⟩

/-- C8: for every `LoanTerms` with method Annuity, positive principal,
positive rate (so the monthly rate `r = rate/100/12` is positive) and
`termMonths ≥ 2`, the principal portion strictly grows from each period to
the next: it equals `P * r * (1+r)^j / ((1+r)^n - 1)` for row index `j`. -/
theorem annuity_principal_growth (t : LoanTerms)
    (hm2 : 2 ≤ t.termMonths) (hp : 0 < t.principal)
    (hra : 0 < t.annualRatePercent) (hme : t.method = .Annuity) :
    ∃ rows, generateSchedule t = .ok rows ∧
      ∀ j (hj : j + 1 < rows.length),
        (rows.get ⟨j, by omega⟩).principal
          < (rows.get ⟨j + 1, hj⟩).principal := by
  have hm : 1 ≤ t.termMonths := by omega
  have hr0 : 0 < monthlyRate t := monthlyRate_pos t hra
  have hlen : (annuityRows (monthlyRate t) (annuityPmtSpec t)
      t.termMonths.toNat 1 t.principal t.startDate).length
      = t.termMonths.toNat := annuityRows_length _ _ _ _ _ _
  refine ⟨_, gen_annuity t hm hme, ?_⟩
  intro j hj
  rw [get_of_get? _ (j + 1) hj _
      (annuityRows_get? _ _ _ _ _ _ (j + 1) (by omega)),
    get_of_get? _ j (by omega) _ (annuityRows_get? _ _ _ _ _ _ j (by omega))]
  show annuityPmtSpec t
      - (stepA (monthlyRate t) (annuityPmtSpec t))^[j] t.principal
        * monthlyRate t
    < annuityPmtSpec t
      - (stepA (monthlyRate t) (annuityPmtSpec t))^[j + 1] t.principal
        * monthlyRate t
  rw [annuityPmtSpec_pos t hm hr0,
    annuity_princ_closed t.principal (monthlyRate t) hr0 t.termMonths.toNat
      (by omega) j,
    annuity_princ_closed t.principal (monthlyRate t) hr0 t.termMonths.toNat
      (by omega) (j + 1)]
  have hD := denomQ_pos (monthlyRate t) hr0 t.termMonths.toNat (by omega)
  have hbase : (1 : ℚ) < 1 + monthlyRate t := by linarith
  have hpow : (1 + monthlyRate t) ^ j < (1 + monthlyRate t) ^ (j + 1) :=
    pow_lt_pow_right₀ hbase (Nat.lt_succ_self j)
  have hnum : t.principal * monthlyRate t * (1 + monthlyRate t) ^ j
      < t.principal * monthlyRate t * (1 + monthlyRate t) ^ (j + 1) :=
    (mul_lt_mul_left (mul_pos hp hr0)).mpr hpow
  rw [div_lt_div_iff₀ hD hD]
  exact mul_lt_mul_of_pos_right hnum hD

theorem annuity_principal_growth_witness :
    (2 ≤ termsA.termMonths ∧ 0 < termsA.principal ∧
      0 < termsA.annualRatePercent ∧ termsA.method = .Annuity) ∧
    (∃ rows, generateSchedule termsA = .ok rows ∧
      ∀ j (hj : j + 1 < rows.length),
        (rows.get ⟨j, by omega⟩).principal
          < (rows.get ⟨j + 1, hj⟩).principal) :=
  ⟨⟨by decide, by decide, by decide, rfl⟩,
    annuity_principal_growth termsA (by decide) (by decide) (by decide) rfl⟩

/-! ## C3 and C9: what the code actually does -/

lemma except_error_bind {α β : Type} (e : String) (f : α → Except String β) :
    (Except.error e : Except String α) >>= f = .error e := rfl

lemma zpow_lt_one_of_neg_exp (a : ℚ) (ha : 1 < a) (m : Int) (hm : m < 0) :
    a ^ m < 1 := by
  obtain ⟨k, hk⟩ : ∃ k : ℕ, m = -((k : Int)) := ⟨(-m).toNat, by omega⟩
  subst hk
  have hk0 : k ≠ 0 := by omega
  have h1 : 1 < a ^ k := one_lt_pow₀ ha hk0
  rw [zpow_neg, zpow_natCast]
  exact inv_lt_one_of_one_lt₀ h1

def termsC3 : LoanTerms := ⟨100000, 12, -1, ⟨2024, 1, 1⟩, .Differentiated⟩

def termsC3n : LoanTerms := ⟨-500, 12, 3, ⟨2024, 1, 1⟩, .Differentiated⟩

/-- C3 counterexample: the generator performs no input validation.  With
`termMonths = -1` it returns successfully with an empty schedule (no error
of any kind is raised), and with a negative principal it returns
successfully with a complete 3-row schedule. -/
theorem invalid_input_counterexample :
    (generateSchedule termsC3).toOption = some [] ∧
    ((generateSchedule termsC3n).toOption.map List.length) = some 3 :=
  ⟨by decide, by decide⟩

/-- C3 amended: there is no `InvalidInput` error.  For `termMonths < 0`
(and non-negative rate) the generator returns an empty schedule without
error; for `termMonths ≥ 1` it succeeds with a full `termMonths`-row
schedule whatever the signs of principal and rate; the only reachable
failure is a `ZeroDivisionError` when `termMonths = 0` in the Annuity or
Differentiated branch, while `termMonths = 0` with Interest Only again
yields an empty schedule. -/
theorem no_input_validation (t : LoanTerms) :
    (t.termMonths < 0 → 0 ≤ t.annualRatePercent →
      generateSchedule t = .ok []) ∧
    (1 ≤ t.termMonths → ∃ rows, generateSchedule t = .ok rows ∧
      (rows.length : Int) = t.termMonths) ∧
    (t.termMonths = 0 → t.method ≠ .InterestOnly →
      generateSchedule t = .error "ZeroDivisionError") ∧
    (t.termMonths = 0 → t.method = .InterestOnly →
      generateSchedule t = .ok []) := by
  refine ⟨?_, ?_, ?_, ?_⟩
  · intro hneg hr
    have hn : t.termMonths.toNat = 0 := by omega
    have hc : ((t.termMonths : ℚ)) ≠ 0 := Int.cast_ne_zero.mpr (by omega)
    cases hmeth : t.method with
    | Annuity =>
      by_cases hr0 : 0 < monthlyRate t
      · have h0 : ¬(1 + monthlyRate t = 0 ∧ t.termMonths < 0) := by
          rintro ⟨h1, _⟩; linarith
        have hD : (1 + monthlyRate t) ^ t.termMonths - 1 ≠ 0 := by
          have hlt := zpow_lt_one_of_neg_exp (1 + monthlyRate t)
            (by linarith) t.termMonths hneg
          intro hcontra
          linarith
        simp [generateSchedule, hmeth, annuityPmt, pypow, pydiv, hr0, h0, hD,
          except_ok_bind, Pure.pure, Except.pure, hn, annuityRows]
      · simp [generateSchedule, hmeth, annuityPmt, pydiv, hr0, hc,
          except_ok_bind, Pure.pure, Except.pure, hn, annuityRows]
    | Differentiated =>
      simp [generateSchedule, hmeth, pydiv, hc, except_ok_bind,
        Pure.pure, Except.pure, hn, diffRows]
    | InterestOnly =>
      simp [generateSchedule, hmeth, Pure.pure, Except.pure, hn, ioRows]
  · intro hm1
    cases hmeth : t.method with
    | Annuity =>
      exact ⟨_, gen_annuity t hm1 hmeth, by rw [annuityRows_length]; omega⟩
    | Differentiated =>
      exact ⟨_, gen_diff t (by omega) hmeth, by rw [diffRows_length]; omega⟩
    | InterestOnly =>
      exact ⟨_, gen_io t hmeth, by rw [ioRows_length]; omega⟩
  · intro h0 hnio
    cases hmeth : t.method with
    | InterestOnly => exact absurd hmeth hnio
    | Annuity =>
      by_cases hr0 : 0 < monthlyRate t
      · have h0' : ¬(1 + monthlyRate t = 0 ∧ t.termMonths < 0) := by
          rintro ⟨h1, h2⟩; omega
        simp [generateSchedule, hmeth, annuityPmt, pypow, pydiv, hr0, h0', h0,
          except_ok_bind, except_error_bind]
      · simp [generateSchedule, hmeth, annuityPmt, pydiv, hr0, h0,
          except_error_bind]
    | Differentiated =>
      simp [generateSchedule, hmeth, pydiv, h0, except_error_bind]
  · intro h0 hio
    simp [generateSchedule, hio, Pure.pure, Except.pure, h0, ioRows]

theorem no_input_validation_witness :
    termsC3.termMonths < 0 ∧ 0 ≤ termsC3.annualRatePercent ∧
      generateSchedule termsC3 = .ok [] :=
  ⟨by decide, by decide,
    (no_input_validation termsC3).1 (by decide) (by decide)⟩

/-- Modelled from the spec's words for C9 only: advance `startDate` by `k`
whole calendar months in a single jump — add `k` to the month, roll the
year, and clamp the day-of-month to the last valid day of the target month
(preserving it where valid).  This is the semantics the claim attributes to
row `k`; it is compared against what the code computes. -/
def specAddWholeMonths (k : Int) (d : Date) : Date :=
  let m0 := d.month - 1 + k
  let y := d.year + m0 / 12
  let m := m0 % 12 + 1
  { year := y, month := m, day := min d.day (daysInMonth y m) }

def termsC9 : LoanTerms := ⟨100, 0, 2, ⟨2024, 1, 31⟩, .InterestOnly⟩

/-- C9 counterexample: starting 2024-01-31, the code's row 2 is dated
2024-03-29 (two successive clamped one-month steps through 2024-02-29),
whereas a single two-whole-month advance clamps only once and gives
2024-03-31.  So row `k`'s date is not `startDate` advanced by exactly `k`
calendar months under the claimed clamp-to-last-valid-day semantics. -/
theorem schedule_dates_counterexample :
    (generateSchedule termsC9).toOption.map (List.map Row.date)
        = some [⟨2024, 2, 29⟩, ⟨2024, 3, 29⟩] ∧
    specAddWholeMonths 2 termsC9.startDate = ⟨2024, 3, 31⟩ ∧
    ((⟨2024, 3, 29⟩ : Date) ≠ (⟨2024, 3, 31⟩ : Date)) :=
  ⟨by decide, by decide, by decide⟩

/-- C9 amended: the date of row `k` (1-based) is `startDate` advanced `k`
successive times by one calendar month, each step preserving the
day-of-month where valid and clamping to the last valid day otherwise
(never a fixed 30-day increment); this equals a single `k`-month advance
unless a step clamps.  In particular with startDate 2024-01-01 row 1 is
dated 2024-02-01. -/
theorem schedule_dates_iterated (t : LoanTerms)
    (hm : 1 ≤ t.termMonths) (hp : 0 ≤ t.principal)
    (hr : 0 ≤ t.annualRatePercent) :
    ∃ rows, generateSchedule t = .ok rows ∧
      (∀ j (hj : j < rows.length),
        (rows.get ⟨j, hj⟩).date = addOneMonth^[j + 1] t.startDate) ∧
      (t.startDate = ⟨2024, 1, 1⟩ → ∀ h0 : 0 < rows.length,
        (rows.get ⟨0, h0⟩).date = ⟨2024, 2, 1⟩) := by
  cases hmeth : t.method with
  | Annuity =>
    have hlen : (annuityRows (monthlyRate t) (annuityPmtSpec t)
        t.termMonths.toNat 1 t.principal t.startDate).length
        = t.termMonths.toNat := annuityRows_length _ _ _ _ _ _
    refine ⟨_, gen_annuity t hm hmeth, ?_, ?_⟩
    · intro j hj
      rw [get_of_get? _ j hj _ (annuityRows_get? _ _ _ _ _ _ j (by omega))]
    · intro hstart h0
      rw [get_of_get? _ 0 h0 _ (annuityRows_get? _ _ _ _ _ _ 0 (by omega)),
        hstart]
      show addOneMonth^[0 + 1] (⟨2024, 1, 1⟩ : Date) = (⟨2024, 2, 1⟩ : Date)
      decide
  | Differentiated =>
    have hlen : (diffRows (monthlyRate t) (t.principal / ((t.termMonths : ℚ)))
        t.termMonths.toNat 1 t.principal t.startDate).length
        = t.termMonths.toNat := diffRows_length _ _ _ _ _ _
    refine ⟨_, gen_diff t (by omega) hmeth, ?_, ?_⟩
    · intro j hj
      rw [get_of_get? _ j hj _ (diffRows_get? _ _ _ _ _ _ j (by omega))]
    · intro hstart h0
      rw [get_of_get? _ 0 h0 _ (diffRows_get? _ _ _ _ _ _ 0 (by omega)),
        hstart]
      show addOneMonth^[0 + 1] (⟨2024, 1, 1⟩ : Date) = (⟨2024, 2, 1⟩ : Date)
      decide
  | InterestOnly =>
    have hik : (1 : Int) + ((t.termMonths.toNat : Int)) = t.termMonths + 1 := by
      omega
    have hlen : (ioRows (monthlyRate t) t.termMonths t.termMonths.toNat 1
        t.principal t.startDate).length = t.termMonths.toNat :=
      ioRows_length _ _ _ _ _ _
    refine ⟨_, gen_io t hmeth, ?_, ?_⟩
    · intro j hj
      rw [get_of_get? _ j hj _ (ioRows_get? _ _ _ _ _ _ hik j (by omega))]
      rcases lt_or_ge (j + 1) t.termMonths.toNat with hc | hc
      · rw [if_pos hc]
      · rw [if_neg (by omega)]
    · intro hstart h0
      rw [get_of_get? _ 0 h0 _ (ioRows_get? _ _ _ _ _ _ hik 0 (by omega)),
        hstart]
      rcases lt_or_ge (0 + 1) t.termMonths.toNat with hc | hc
      · rw [if_pos hc]
        show addOneMonth^[0 + 1] (⟨2024, 1, 1⟩ : Date) = (⟨2024, 2, 1⟩ : Date)
        decide
      · rw [if_neg (by omega)]
        show addOneMonth^[0 + 1] (⟨2024, 1, 1⟩ : Date) = (⟨2024, 2, 1⟩ : Date)
        decide

theorem schedule_dates_iterated_witness :
    (1 ≤ termsC9.termMonths ∧ 0 ≤ termsC9.principal ∧
      0 ≤ termsC9.annualRatePercent) ∧
    (∃ rows, generateSchedule termsC9 = .ok rows ∧
      (∀ j (hj : j < rows.length),
        (rows.get ⟨j, hj⟩).date = addOneMonth^[j + 1] termsC9.startDate) ∧
      (termsC9.startDate = ⟨2024, 1, 1⟩ → ∀ h0 : 0 < rows.length,
        (rows.get ⟨0, h0⟩).date = ⟨2024, 2, 1⟩)) :=
  ⟨⟨by decide, by decide, by decide⟩,
    schedule_dates_iterated termsC9 (by decide) (by decide) (by decide)⟩
